import Mathlib

/-!
Shallow embedding of the retrieval core of a RAG pipeline:
the FAISS-HNSW vector store wrapper (`vector_db/faiss.py`), the
multi-stage ranking retriever (`rag/retriever.py`), and the Q&A-format
chunking heuristic (`chunking/chunking_pipeline.py`).

Modelling conventions:
* Python floats are modelled as rationals (`ℚ`); the constants `0.7`,
  `0.2`, `0.1` become `7/10`, `2/10`, `1/10`.
* Python dict values appearing in chunk metadata are modelled by the
  inductive type `PyVal`; `dict.get` returning `None` for a missing key
  is modelled by `pyGet` returning `PyVal.none`, and Python truthiness
  by `PyVal.truthy`.
* The HNSW graph traversal performed by `faiss.IndexHNSWFlat.search` is
  approximate and non-deterministic; it is modelled by an oracle
  parameter `gs : Store → List ℚ → Nat → List (ℚ × Int)` returning the
  `(distance, index)` pairs of `zip(distances[0], indices[0])`.  The
  oracle receives the store whose `hnswEfSearch` field was set for the
  call, so "the graph search ran with candidate-list size e" is visible
  as the argument at which the oracle is applied.
* `faiss.Index.add` validates that every row of the input array has
  width `d` before inserting, raising on mismatch without mutating the
  index; `add_embeddings` models this as returning the unchanged store
  together with an error message.
-/

/-- Python values stored in chunk metadata dictionaries.  The only
nested dict occurring in this repository's metadata is the `intent`
sub-map of boolean flags, so the `dict` payload maps keys to `Bool`. -/
inductive PyVal where
  | str (v : String)
  | int (v : Int)
  | bool (v : Bool)
  | dict (d : List (String × Bool))
  | none
deriving DecidableEq, Repr, Inhabited

/-- Python truthiness of a metadata value (`if v:`). -/
def PyVal.truthy : PyVal → Bool
  | .str v => !v.isEmpty
  | .int v => v != 0
  | .bool v => v
  | .dict d => !d.isEmpty
  | .none => false

/-- A chunk metadata mapping (Python dict `str → value`). -/
abbrev Metadata := List (String × PyVal)

/-- First-binding association-list lookup (Python dict indexing never
has duplicate keys, so first-binding lookup is exact). -/
def alget {β : Type} (m : List (String × β)) (key : String) : Option β :=
  match m with
  | [] => Option.none
  | (k, v) :: rest => if k = key then some v else alget rest key

/-- Python `m.get(key)`: `None` when the key is absent. -/
def pyGet (m : Metadata) (key : String) : PyVal :=
  (alget m key).getD PyVal.none

/-- Python `m.get(key, default)`. -/
def pyGetD (m : Metadata) (key : String) (d : PyVal) : PyVal :=
  (alget m key).getD d

/-- Truthiness of `meta.get("intent", {}).get(key)`: the `.get(key)`
on the intent sub-dict yields `None` (falsy) when the key is absent and
the stored boolean otherwise; a non-dict receiver raises in Python and
never occurs on well-formed metadata. -/
def intentFlag (v : PyVal) (key : String) : Bool :=
  match v with
  | .dict d => (alget d key).getD false
  | _ => false

/-- State of `FAISSHNSWStore`: the FAISS index is modelled by the list
of stored vectors plus the mutable `hnsw.efSearch` parameter
(`hnswEfSearch`); `metadata` and `chunk_texts` are the parallel Python
lists; `ef_search` is the constructor argument kept on the instance. -/
structure Store where
  dimension : Nat
  bigM : Nat
  ef_construction : Nat
  ef_search : Nat
  hnswEfSearch : Nat
  vectors : List (List ℚ)
  metadata : List Metadata
  chunk_texts : List String
  is_trained : Bool
deriving DecidableEq, Repr

/-- Models `index.ntotal`. -/
def Store.ntotal (s : Store) : Nat := s.vectors.length

/-- A search hit as built by `FAISSHNSWStore.search` (the
`search_time_ms` field carries wall-clock time and is not modelled). -/
structure Hit where
  rank : Nat
  distance : ℚ
  score : ℚ
  text : String
  metadata : Metadata
deriving DecidableEq, Repr

/-- Models `similarity_score = 1.0 / (1.0 + distance)`. -/
def simScore (d : ℚ) : ℚ := 1 / (1 + d)

/-- The post-processing loop of `FAISSHNSWStore.search` (lines 51-63):
enumerate the `(distance, idx)` pairs, keep those with `idx != -1 and
idx < len(self.metadata)`, and build the result dicts.  FAISS only
returns `-1` or a valid row id, so `idx.toNat` indexing agrees with the
source for every oracle respecting that contract. -/
def processRaw (s : Store) (raw : List (ℚ × Int)) : List Hit :=
  raw.enum.filterMap fun p =>
    if p.2.2 ≠ -1 ∧ p.2.2 < (s.metadata.length : Int) then
      some { rank := p.1 + 1
             distance := p.2.1
             score := simScore p.2.1
             text := s.chunk_texts.getD p.2.2.toNat ""
             metadata := s.metadata.getD p.2.2.toNat [] }
    else Option.none

/-- The type of the HNSW graph-search oracle standing for
`self.index.search(query_embedding, k)`: it sees the store state
(including the `efSearch` in force during the call), the query and `k`,
and yields the `(distance, index)` pairs of the first result row. -/
abbrev GraphSearch := Store → List ℚ → Nat → List (ℚ × Int)

/-- Models `FAISSHNSWStore.search`: empty-index guard, temporary widening of
`hnsw.efSearch` to `max(self.ef_search, k * 2)`, graph search, restore,
then result construction.  Returns the hits together with the store as
left by the call (the store is returned explicitly because the Python
method mutates `self.index.hnsw.efSearch` in place). -/
def Store.search (s : Store) (gs : GraphSearch) (q : List ℚ) (k : Nat) :
    List Hit × Store :=
  if s.ntotal = 0 then ([], s)
  else
    let original_ef_search := s.hnswEfSearch
    let s1 := { s with hnswEfSearch := max s.ef_search (k * 2) }
    let raw := gs s1 q k
    let s2 := { s1 with hnswEfSearch := original_ef_search }
    (processRaw s2 raw, s2)

/-- Models `FAISSHNSWStore.add_embeddings`: no-op on an empty batch; otherwise
FAISS validates the row width against `d` (raising on mismatch before
any mutation), then the vectors are appended and `metadata` /
`chunk_texts` are extended.  The second component is the error raised,
if any; on error the returned store is the unchanged input. -/
def Store.add_embeddings (s : Store) (embeddings : List (List ℚ))
    (metadata_list : List Metadata) (chunk_texts : List String) :
    Store × Option String :=
  if embeddings.length = 0 then (s, Option.none)
  else if embeddings.all fun v => v.length == s.dimension then
    ({ s with vectors := s.vectors ++ embeddings
              metadata := s.metadata ++ metadata_list
              chunk_texts := s.chunk_texts ++ chunk_texts
              is_trained := true }, Option.none)
  else (s, some "AssertionError: input dimension does not match index dimension")

/-- Squared Euclidean distance between two vectors.
`search_with_metadata` computes `np.linalg.norm(c - q)`, i.e. the
square root of this sum; the square root is strictly monotone on
nonnegatives, so ranking by it coincides with ranking by the squared
distance, which is what the model stores (ℚ has no square root). -/
def sqDist (u v : List ℚ) : ℚ :=
  ((u.zip v).map fun p => (p.1 - p.2) ^ 2).sum

/-- Models `all(m.get(key) == val for key, val in metadata_filters.items())`. -/
def matchesAll (m : Metadata) (filters : List (String × PyVal)) : Bool :=
  filters.all fun p => pyGet m p.1 == p.2

/-- The brute-force ranking core of `search_with_metadata` (lines
110-130): compute the distance of every candidate to the query, argsort
ascending, truncate to `k`, and build result dicts with 1-based
ranks. -/
def bruteForceRank (s : Store) (q : List ℚ) (candidate_indices : List Nat)
    (k : Nat) : List Hit :=
  let dists := candidate_indices.map fun i => (sqDist (s.vectors.getD i []) q, i)
  let sorted := dists.mergeSort fun a b => decide (a.1 ≤ b.1)
  (sorted.take k).enum.map fun p =>
    { rank := p.1 + 1
      distance := p.2.1
      score := simScore p.2.1
      text := s.chunk_texts.getD p.2.2 ""
      metadata := s.metadata.getD p.2.2 [] }

/-- Models `FAISSHNSWStore.search_with_metadata`: `None` filters fall back to
the plain graph search; otherwise candidate ids are those whose
metadata matches all filter pairs, an empty candidate set yields `[]`,
and the rest is exact brute-force ranking over the candidates. -/
def Store.search_with_metadata (s : Store) (gs : GraphSearch) (q : List ℚ)
    (metadata_filters : Option (List (String × PyVal))) (k : Nat) : List Hit :=
  match metadata_filters with
  | Option.none => (s.search gs q k).1
  | some filters =>
    let candidate_indices := (List.range s.metadata.length).filter
      fun i => matchesAll (s.metadata.getD i []) filters
    if candidate_indices.isEmpty then []
    else bruteForceRank s q candidate_indices k

/-- The query dict produced by `QueryProcessor`—the retriever reads
`embedding`, `metadata_filters` and `query_intent` (absent keys
modelled by `Option.none`). -/
structure QueryData where
  embedding : List ℚ
  metadata_filters : Option (List (String × PyVal))
  query_intent : Option (List (String × Bool))
deriving DecidableEq, Repr

/-- Python truthiness of an optional dict: `None` and `{}` are falsy. -/
def optDictTruthy {α : Type} : Option (List α) → Bool
  | Option.none => false
  | some l => !l.isEmpty

/-- Models `sum(1 for key, val in metadata_filters.items() if
r["metadata"].get(key) == val)`. -/
def metaMatchCount (filters : List (String × PyVal)) (m : Metadata) : Nat :=
  (filters.filter fun p => pyGet m p.1 == p.2).length

/-- The nested `intent_score` helper of `Retriever.retrieve`: count the
intent keys the caller wants that the candidate's metadata also
carries as a truthy `intent` flag. -/
def intentScore (m : Metadata) (intent : List (String × Bool)) : Nat :=
  (intent.filter fun p => p.2 && intentFlag (pyGetD m "intent" (.dict [])) p.1).length

/-- A retriever hit: the base search hit plus the three fields the
retriever writes into the dict (`meta_score`, `intent_score`,
`final_score`). -/
structure ScoredHit extends Hit where
  meta_score : ℚ
  intent_score : Nat
  final_score : ℚ
deriving DecidableEq, Repr

/-- Steps 3-5 of `Retriever.retrieve` for one surviving candidate.  The
source runs three separate loops mutating each result dict in place;
they touch disjoint fields, so one pass per candidate is equivalent.
`0.7`, `0.2`, `0.1` are `similarity_weight`, `intent_weight`,
`meta_weight`. -/
def scoreCandidate (qd : QueryData) (r : Hit) : ScoredHit :=
  let ms : ℚ :=
    if optDictTruthy qd.metadata_filters then
      (metaMatchCount (qd.metadata_filters.getD []) r.metadata : ℚ) /
        ((qd.metadata_filters.getD []).length : ℚ)
    else 0
  let isc : Nat :=
    if optDictTruthy qd.query_intent then
      intentScore r.metadata (qd.query_intent.getD [])
    else 0
  { toHit := r
    meta_score := ms
    intent_score := isc
    final_score := 7/10 * r.score + 2/10 * (isc : ℚ) + 1/10 * ms }

/-- Steps 1-5 of `Retriever.retrieve`: over-fetch `3k` candidates from
the plain vector search, drop those beyond `max_distance`, and attach
the three scores to each survivor. -/
def Retriever.survivors (vs : Store) (gs : GraphSearch) (qd : QueryData)
    (k : Nat) (max_distance : ℚ) : List ScoredHit :=
  let base_results := (vs.search gs qd.embedding (k * 3)).1
  let filtered_results := base_results.filter fun r => decide (r.distance ≤ max_distance)
  filtered_results.map (scoreCandidate qd)

/-- Models `Retriever.retrieve`: the survivor list sorted by `final_score`
descending (Python `sorted` with `reverse=True` is a stable descending
sort) and truncated to the first `k`. -/
def Retriever.retrieve (vs : Store) (gs : GraphSearch) (qd : QueryData)
    (k : Nat) (max_distance : ℚ) : List ScoredHit :=
  ((Retriever.survivors vs gs qd k max_distance).mergeSort
    fun a b => decide (b.final_score ≤ a.final_score)).take k

/-- ASCII whitespace recognised by the regex class `\s`
(space, tab, newline, carriage return, vertical tab, form feed). -/
def isWs (c : Char) : Bool :=
  c = ' ' || c = '\t' || c = '\n' || c = '\r' || c = Char.ofNat 11 || c = Char.ofNat 12

/-- Case-insensitive literal prefix test at a position: does the text
suffix `t` start with `pat` up to ASCII lowercasing?  Models matching a
literal pattern fragment under `re.IGNORECASE`. -/
def lcStarts (pat : String) (t : List Char) : Bool :=
  ((t.take pat.length).map Char.toLower) == pat.toList

/-- Pattern `Q\.\d+` under `IGNORECASE` at this position: `q`/`Q`, a literal
dot, then at least one digit. -/
def qdotMatch (t : List Char) : Bool :=
  match t with
  | c :: '.' :: d :: _ => (c.toLower = 'q') && d.isDigit
  | _ => false

/-- Pattern `Question\s*\d+` under `IGNORECASE` at this position: the literal
word, any run of whitespace, then at least one digit (`\s` and `\d` are
disjoint, so the greedy run is exact). -/
def questionNumMatch (t : List Char) : Bool :=
  lcStarts "question" t &&
    match (t.drop 8).dropWhile isWs with
    | d :: _ => d.isDigit
    | [] => false

/-- Pattern `^Word\s+` under `IGNORECASE | MULTILINE` at this position: only at
a line start (`bol`), the literal word, then at least one whitespace
character. -/
def whMatch (w : String) (bol : Bool) (t : List Char) : Bool :=
  bol && lcStarts w t &&
    match t.drop w.length with
    | c :: _ => isWs c
    | [] => false

/-- Pattern `\?$` under `MULTILINE` at this position: a question mark followed
by the end of the text or a newline. -/
def qmarkEolMatch (t : List Char) : Bool :=
  match t with
  | ['?'] => true
  | '?' :: c :: _ => c = '\n'
  | _ => false

/-- All positions of a text, each with its beginning-of-line flag
(start of string, or right after a newline) — the positions `re.search`
scans under `MULTILINE`. -/
def suffixesBOL : List Char → Bool → List (Bool × List Char)
  | [], bol => [(bol, [])]
  | c :: cs, bol => (bol, c :: cs) :: suffixesBOL cs (c = '\n')

/-- Models `HybridChunker.is_qna_format`: an empty text is falsy and rejected
up front; otherwise the text matches when any of the eleven Q&A regex
patterns matches at some position.  (`isinstance(text, str)` always
holds in the model, where texts are strings by type.) -/
def is_qna_format (text : String) : Bool :=
  if text.isEmpty then false
  else (suffixesBOL text.toList true).any fun p =>
    qdotMatch p.2 || questionNumMatch p.2 ||
    whMatch "what" p.1 p.2 || whMatch "how" p.1 p.2 ||
    whMatch "why" p.1 p.2 || whMatch "where" p.1 p.2 ||
    whMatch "when" p.1 p.2 || whMatch "who" p.1 p.2 ||
    qmarkEolMatch p.2 || lcStarts "answer:" p.2 || lcStarts "solution:" p.2

/-- One element of `pages_data`: the chunking pipeline reads only the
`text` field here (the page-number metadata feeds a local logging list
that the result does not depend on). -/
structure Page where
  text : String
deriving DecidableEq, Repr

/-- Models `HybridChunker.detect_qna_in_pages`: fewer than three pages (or an
empty list) is an immediate `False`; otherwise count the Q&A-format
pages among the first ten and compare with the threshold 3. -/
def detect_qna_in_pages (pages_data : List Page) : Bool :=
  if pages_data.isEmpty || pages_data.length < 3 then false
  else
    let pages_to_check := pages_data.take 10
    let qna_count := pages_to_check.countP fun p => is_qna_format p.text
    decide (3 ≤ qna_count)

/-! ### Concrete instances used by the witnesses -/

/-- A two-record store over dimension 2. -/
def exStore : Store :=
  { dimension := 2
    bigM := 32
    ef_construction := 200
    ef_search := 50
    hnswEfSearch := 50
    vectors := [[0, 0], [3, 4]]
    metadata := [[("domain", .str "technology")],
                 [("domain", .str "science"), ("intent", .dict [("is_definition", true)])]]
    chunk_texts := ["alpha", "beta"]
    is_trained := true }

/-- A graph-search oracle returning both records plus a `-1` padding
row, as FAISS does when fewer than `k` neighbours exist. -/
def exGs : GraphSearch := fun _ _ _ => [(2, 0), (25, 1), (0, -1)]

/-- The hit `exStore.search exGs` builds from the `(2, 0)` row. -/
def exHit : Hit :=
  { rank := 1
    distance := 2
    score := simScore 2
    text := "alpha"
    metadata := [("domain", .str "technology")] }

/-- The hit `exStore.search exGs` builds from the `(25, 1)` row. -/
def exHitB : Hit :=
  { rank := 2
    distance := 25
    score := simScore 25
    text := "beta"
    metadata := [("domain", .str "science"), ("intent", .dict [("is_definition", true)])] }

/-- A concrete query dict with one metadata filter and one intent flag. -/
def exQd : QueryData :=
  { embedding := [0, 0]
    metadata_filters := some [("domain", .str "technology")]
    query_intent := some [("is_definition", true)] }

/-! ### Helper lemmas -/

theorem processRaw_mem_score (s : Store) (raw : List (ℚ × Int)) (r : Hit)
    (h : r ∈ processRaw s raw) : r.score = simScore r.distance := by
  simp only [processRaw, List.mem_filterMap] at h
  obtain ⟨p, -, hp⟩ := h
  split at hp
  · obtain rfl := Option.some.inj hp
    rfl
  · exact absurd hp (by simp)

theorem search_spec (s : Store) (gs : GraphSearch) (q : List ℚ) (k : Nat)
    (h : s.ntotal ≠ 0) :
    s.search gs q k =
      (processRaw s (gs { s with hnswEfSearch := max s.ef_search (k * 2) } q k), s) := by
  simp only [Store.search, if_neg h]

theorem search_mem_score (s : Store) (gs : GraphSearch) (q : List ℚ) (k : Nat)
    (r : Hit) (h : r ∈ (s.search gs q k).1) : r.score = simScore r.distance := by
  by_cases h0 : s.ntotal = 0
  · simp [Store.search, h0] at h
  · rw [search_spec s gs q k h0] at h
    exact processRaw_mem_score _ _ _ h

/-! ### C5 -/

/-- C5: every hit produced by `FAISSHNSWStore.search` carries
`score = 1/(1+distance)`; on nonnegative distances this conversion is
strictly decreasing, equals `1` at distance `0`, lies in `(0, 1]`, and
its denominator `1 + d` is at least `1`, so it never divides by
zero. -/
theorem search_score_conversion :
    (∀ (s : Store) (gs : GraphSearch) (q : List ℚ) (k : Nat) (r : Hit),
        r ∈ (s.search gs q k).1 → r.score = simScore r.distance) ∧
    (∀ d₁ d₂ : ℚ, 0 ≤ d₁ → d₁ < d₂ → simScore d₂ < simScore d₁) ∧
    simScore 0 = 1 ∧
    (∀ d : ℚ, 0 ≤ d → 0 < simScore d ∧ simScore d ≤ 1) ∧
    (∀ d : ℚ, 0 ≤ d → 1 ≤ 1 + d) := by
  refine ⟨search_mem_score, ?_, by norm_num [simScore], ?_, by intro d hd; linarith⟩
  · intro d₁ d₂ h1 h2
    simp only [simScore]
    exact one_div_lt_one_div_of_lt (by linarith) (by linarith)
  · intro d hd
    constructor
    · simp only [simScore]
      positivity
    · simp only [simScore]
      rw [div_le_one (by linarith)]
      linarith

/-- Witness for C5 at the concrete store `exStore`: the hit built from
the raw row `(2, 0)` satisfies the score conversion, and the bounds
hold at distance `2`. -/
theorem search_score_conversion_witness :
    exHit.score = simScore exHit.distance ∧
    simScore 2 < simScore 1 ∧
    (0 < simScore 2 ∧ simScore 2 ≤ 1) ∧
    1 ≤ (1 : ℚ) + 2 :=
  ⟨search_score_conversion.1 exStore exGs [0, 0] 3 exHit (by
      rw [show (exStore.search exGs [0, 0] 3).1 = [exHit,
        { rank := 2, distance := 25, score := simScore 25, text := "beta",
          metadata := [("domain", .str "science"),
                       ("intent", .dict [("is_definition", true)])] }] from rfl]
      exact List.mem_cons_self _ _),
   search_score_conversion.2.1 1 2 (by norm_num) (by norm_num),
   search_score_conversion.2.2.2.1 2 (by norm_num),
   search_score_conversion.2.2.2.2 2 (by norm_num)⟩

/-! ### C3 -/

/-- C3: for an aligned batch of correctly-dimensioned vectors,
`add_embeddings` succeeds, appends to all three parallel sequences in
order, grows the vector count by the batch size, preserves the
alignment invariant, and leaves every previously stored record in
place at its old id (append-only; ids are positions, so they are
assigned in insertion order and never reused). -/
theorem add_embeddings_append_only
    (s : Store) (e : List (List ℚ)) (ml : List Metadata) (ct : List String)
    (hlen1 : e.length = ml.length) (hlen2 : ml.length = ct.length)
    (hdim : ∀ v ∈ e, v.length = s.dimension)
    (hinv1 : s.metadata.length = s.chunk_texts.length)
    (hinv2 : s.chunk_texts.length = s.ntotal) :
    (s.add_embeddings e ml ct).2 = Option.none ∧
    (s.add_embeddings e ml ct).1.metadata = s.metadata ++ ml ∧
    (s.add_embeddings e ml ct).1.chunk_texts = s.chunk_texts ++ ct ∧
    (s.add_embeddings e ml ct).1.vectors = s.vectors ++ e ∧
    (s.add_embeddings e ml ct).1.ntotal = s.ntotal + e.length ∧
    (s.add_embeddings e ml ct).1.metadata.length =
      (s.add_embeddings e ml ct).1.chunk_texts.length ∧
    (s.add_embeddings e ml ct).1.chunk_texts.length =
      (s.add_embeddings e ml ct).1.ntotal ∧
    (s.add_embeddings e ml ct).1.metadata.take s.metadata.length = s.metadata ∧
    (s.add_embeddings e ml ct).1.chunk_texts.take s.chunk_texts.length = s.chunk_texts ∧
    (s.add_embeddings e ml ct).1.vectors.take s.ntotal = s.vectors := by
  by_cases h0 : e.length = 0
  · obtain rfl : e = [] := List.length_eq_zero.mp h0
    obtain rfl : ml = [] := List.length_eq_zero.mp (by omega)
    obtain rfl : ct = [] := List.length_eq_zero.mp (by omega)
    simp [Store.add_embeddings, Store.ntotal, hinv1, hinv2, List.take_length]
  · have hall : e.all (fun v => v.length == s.dimension) = true := by
      rw [List.all_eq_true]
      intro v hv
      simpa using hdim v hv
    have heq : s.add_embeddings e ml ct =
        ({ s with vectors := s.vectors ++ e
                  metadata := s.metadata ++ ml
                  chunk_texts := s.chunk_texts ++ ct
                  is_trained := true }, Option.none) := by
      unfold Store.add_embeddings
      rw [if_neg h0, if_pos hall]
    rw [heq]
    have hv : s.ntotal = s.vectors.length := rfl
    refine ⟨rfl, rfl, rfl, rfl, ?_, ?_, ?_, ?_, ?_, ?_⟩
    · simp [Store.ntotal]
    · simp only [List.length_append]
      omega
    · simp only [Store.ntotal, List.length_append]
      have := hinv1
      have := hinv2
      simp only [Store.ntotal] at this
      omega
    · exact List.take_left s.metadata ml
    · exact List.take_left s.chunk_texts ct
    · exact hv ▸ List.take_left s.vectors e

/-- Witness for C3: adding one aligned, correctly-dimensioned record to
the two-record `exStore` succeeds and grows the count from 2 to 3 while
keeping the old records as a prefix. -/
theorem add_embeddings_append_only_witness :
    (exStore.add_embeddings [[1, 1]] [[("k", PyVal.str "v")]] ["gamma"]).2 = Option.none ∧
    (exStore.add_embeddings [[1, 1]] [[("k", PyVal.str "v")]] ["gamma"]).1.ntotal = 3 ∧
    (exStore.add_embeddings [[1, 1]] [[("k", PyVal.str "v")]]
      ["gamma"]).1.chunk_texts.take 2 = exStore.chunk_texts := by
  have h := add_embeddings_append_only exStore [[1, 1]] [[("k", PyVal.str "v")]] ["gamma"]
    (by decide) (by decide) (by decide) (by decide) (by decide)
  refine ⟨h.1, ?_, h.2.2.2.2.2.2.2.2.1⟩
  rw [h.2.2.2.2.1]
  rfl

/-! ### C8 -/

/-- C8: a batch containing a vector of the wrong dimension is rejected
whole — the call reports an error and the store (metadata list,
chunk-text list, vector count) is exactly what it was before. -/
theorem add_embeddings_dim_mismatch_atomic
    (s : Store) (e : List (List ℚ)) (ml : List Metadata) (ct : List String)
    (v : List ℚ) (hv : v ∈ e) (hbad : v.length ≠ s.dimension) :
    (s.add_embeddings e ml ct).1 = s ∧
    (s.add_embeddings e ml ct).2.isSome = true ∧
    (s.add_embeddings e ml ct).1.metadata = s.metadata ∧
    (s.add_embeddings e ml ct).1.chunk_texts = s.chunk_texts ∧
    (s.add_embeddings e ml ct).1.ntotal = s.ntotal := by
  have h0 : e.length ≠ 0 := by
    cases e with
    | nil => cases hv
    | cons a l => simp
  have hall : e.all (fun w => w.length == s.dimension) = false := by
    rw [Bool.eq_false_iff]
    intro hcontra
    rw [List.all_eq_true] at hcontra
    exact hbad (by simpa using hcontra v hv)
  have heq : s.add_embeddings e ml ct =
      (s, some "AssertionError: input dimension does not match index dimension") := by
    unfold Store.add_embeddings
    rw [if_neg h0, if_neg (by simp [hall])]
  rw [heq]
  exact ⟨rfl, rfl, rfl, rfl, rfl⟩

/-- Witness for C8: adding a 1-dimensional vector to the 2-dimensional
`exStore` fails and leaves the store untouched. -/
theorem add_embeddings_dim_mismatch_atomic_witness :
    (exStore.add_embeddings [[1]] [[]] ["x"]).1 = exStore ∧
    (exStore.add_embeddings [[1]] [[]] ["x"]).2.isSome = true := by
  have h := add_embeddings_dim_mismatch_atomic exStore [[1]] [[]] ["x"] [1]
    (by decide) (by decide)
  exact ⟨h.1, h.2.1⟩

/-! ### C7 -/

/-- C7: on a non-empty index, `search` runs the graph search on the
store whose `hnsw.efSearch` is `max(self.ef_search, k * 2)`, and the
store state after the call — the restored `efSearch` together with all
other fields (`metadata`, `chunk_texts`, vector count, construction
parameters) — is exactly the state before the call. -/
theorem search_ef_widen_and_restore
    (s : Store) (gs : GraphSearch) (q : List ℚ) (k : Nat) (hne : s.ntotal ≠ 0) :
    (s.search gs q k).1 =
      processRaw s (gs { s with hnswEfSearch := max s.ef_search (k * 2) } q k) ∧
    (s.search gs q k).2 = s := by
  rw [search_spec s gs q k hne]
  exact ⟨rfl, rfl⟩

/-- Witness for C7: a concrete search on `exStore` leaves the store
exactly as it was, and its hits are those computed from the oracle run
on the widened store. -/
theorem search_ef_widen_and_restore_witness :
    (exStore.search exGs [0, 0] 3).2 = exStore ∧
    (exStore.search exGs [0, 0] 3).1 =
      processRaw exStore
        (exGs { exStore with hnswEfSearch := max exStore.ef_search (3 * 2) } [0, 0] 3) := by
  have h := search_ef_widen_and_restore exStore exGs [0, 0] 3 (by decide)
  exact ⟨h.2, h.1⟩

/-! ### Retriever helper lemmas -/

theorem survivors_mem (vs : Store) (gs : GraphSearch) (qd : QueryData)
    (k : Nat) (maxd : ℚ) (r : ScoredHit)
    (h : r ∈ Retriever.survivors vs gs qd k maxd) :
    ∃ b ∈ (vs.search gs qd.embedding (k * 3)).1,
      b.distance ≤ maxd ∧ r = scoreCandidate qd b := by
  simp only [Retriever.survivors, List.mem_map, List.mem_filter] at h
  obtain ⟨b, ⟨hb, hd⟩, rfl⟩ := h
  exact ⟨b, hb, of_decide_eq_true hd, rfl⟩

theorem retrieve_mem_survivors (vs : Store) (gs : GraphSearch) (qd : QueryData)
    (k : Nat) (maxd : ℚ) (r : ScoredHit)
    (h : r ∈ Retriever.retrieve vs gs qd k maxd) :
    r ∈ Retriever.survivors vs gs qd k maxd :=
  List.mem_mergeSort.mp (List.take_subset _ _ h)

/-! ### C1 -/

/-- C1: every candidate surviving the distance gate carries
`final_score = 0.7·score + 0.2·intent_score + 0.1·meta_score`; the
returned list is the survivor list sorted by `final_score` descending
and truncated to the first `k`, so it has at most `k` hits and no hit
has a lower `final_score` than any hit after it. -/
theorem retrieve_fusion_and_order
    (vs : Store) (gs : GraphSearch) (qd : QueryData) (k : Nat) (maxd : ℚ) :
    (∀ r ∈ Retriever.survivors vs gs qd k maxd,
        r.final_score =
          7/10 * r.score + 2/10 * (r.intent_score : ℚ) + 1/10 * r.meta_score) ∧
    Retriever.retrieve vs gs qd k maxd =
      ((Retriever.survivors vs gs qd k maxd).mergeSort
        fun a b => decide (b.final_score ≤ a.final_score)).take k ∧
    (Retriever.retrieve vs gs qd k maxd).Pairwise
      (fun a b => b.final_score ≤ a.final_score) ∧
    (Retriever.retrieve vs gs qd k maxd).length ≤ k := by
  refine ⟨?_, rfl, ?_, List.length_take_le k _⟩
  · intro r hr
    obtain ⟨b, -, -, rfl⟩ := survivors_mem vs gs qd k maxd r hr
    rfl
  · have hs : ((Retriever.survivors vs gs qd k maxd).mergeSort
        fun a b => decide (b.final_score ≤ a.final_score)).Pairwise
        (fun a b => decide (b.final_score ≤ a.final_score) = true) := by
      apply List.sorted_mergeSort
      · intro a b c hab hbc
        simp only [decide_eq_true_eq] at *
        exact le_trans hbc hab
      · intro a b
        simp only [Bool.or_eq_true, decide_eq_true_eq]
        exact le_total b.final_score a.final_score
    exact (hs.sublist (List.take_sublist k _)).imp fun h => of_decide_eq_true h

/-- Witness for C1: in the one-survivor scenario on `exStore`, the
fusion formula holds for the surviving hit and the result is within the
requested length. -/
theorem retrieve_fusion_and_order_witness :
    (scoreCandidate exQd exHit).final_score =
      7/10 * (scoreCandidate exQd exHit).score +
      2/10 * ((scoreCandidate exQd exHit).intent_score : ℚ) +
      1/10 * (scoreCandidate exQd exHit).meta_score ∧
    (Retriever.retrieve exStore exGs exQd 1 10).length ≤ 1 :=
  ⟨(retrieve_fusion_and_order exStore exGs exQd 1 10).1 (scoreCandidate exQd exHit)
      (by
        rw [show Retriever.survivors exStore exGs exQd 1 10 =
          [scoreCandidate exQd exHit] from rfl]
        exact List.mem_cons_self _ _),
   (retrieve_fusion_and_order exStore exGs exQd 1 10).2.2.2⟩

/-! ### C2 -/

/-- C2: every hit `retrieve` returns has distance at most
`max_distance`, and if the distance gate removes every over-fetched
candidate the result is the empty list (reached by normal control flow,
not an exception). -/
theorem retrieve_distance_gate
    (vs : Store) (gs : GraphSearch) (qd : QueryData) (k : Nat) (maxd : ℚ) :
    (∀ r ∈ Retriever.retrieve vs gs qd k maxd, r.distance ≤ maxd) ∧
    ((∀ b ∈ (vs.search gs qd.embedding (k * 3)).1, maxd < b.distance) →
      Retriever.retrieve vs gs qd k maxd = []) := by
  constructor
  · intro r hr
    obtain ⟨b, -, hd, rfl⟩ := survivors_mem vs gs qd k maxd r
      (retrieve_mem_survivors vs gs qd k maxd r hr)
    exact hd
  · intro hall
    have hsur : Retriever.survivors vs gs qd k maxd = [] := by
      simp only [Retriever.survivors]
      rw [List.filter_eq_nil_iff.mpr, List.map_nil]
      intro b hb
      simp only [decide_eq_true_eq]
      exact not_le.mpr (hall b hb)
    simp [Retriever.retrieve, hsur]

/-- Witness for C2 on `exStore`: with `max_distance = 10` the returned
hit keeps distance at most 10; with `max_distance = 1` both base
candidates (distances 2 and 25) are gated out and the result is
empty. -/
theorem retrieve_distance_gate_witness :
    (scoreCandidate exQd exHit).distance ≤ 10 ∧
    Retriever.retrieve exStore exGs exQd 1 1 = [] :=
  ⟨(retrieve_distance_gate exStore exGs exQd 1 10).1 (scoreCandidate exQd exHit)
      (by
        have h1 : Retriever.survivors exStore exGs exQd 1 10 =
            [scoreCandidate exQd exHit] := rfl
        simp [Retriever.retrieve, h1]),
   (retrieve_distance_gate exStore exGs exQd 1 1).2
      (by
        rw [show (exStore.search exGs exQd.embedding (1 * 3)).1 =
          [exHit, exHitB] from rfl]
        intro b hb
        rcases List.mem_cons.mp hb with rfl | hb2
        · norm_num [exHit]
        · rcases List.mem_cons.mp hb2 with rfl | h3
          · norm_num [exHitB]
          · cases h3)⟩

/-! ### C4 -/

/-- C4: for every candidate surviving the distance gate, an absent or
empty filter dict yields `meta_score = 0.0` (that branch never forms
the quotient, so no zero-divisor arises); a non-empty filter dict
yields the matching-key count divided by the filter count, which lies
in `[0, 1]`. -/
theorem retrieve_meta_score_soft
    (vs : Store) (gs : GraphSearch) (qd : QueryData) (k : Nat) (maxd : ℚ)
    (r : ScoredHit) (hr : r ∈ Retriever.survivors vs gs qd k maxd) :
    (optDictTruthy qd.metadata_filters = false → r.meta_score = 0) ∧
    (optDictTruthy qd.metadata_filters = true →
      r.meta_score =
        (metaMatchCount (qd.metadata_filters.getD []) r.metadata : ℚ) /
          ((qd.metadata_filters.getD []).length : ℚ) ∧
      0 ≤ r.meta_score ∧ r.meta_score ≤ 1) := by
  obtain ⟨b, -, -, rfl⟩ := survivors_mem vs gs qd k maxd r hr
  constructor
  · intro hf
    simp [scoreCandidate, hf]
  · intro hf
    have hlen : 0 < (qd.metadata_filters.getD []).length := by
      cases hqf : qd.metadata_filters with
      | none => rw [hqf] at hf; cases hf
      | some l =>
        rw [hqf] at hf
        simp only [optDictTruthy, Bool.not_eq_true'] at hf
        simp only [Option.getD_some]
        rw [List.length_pos]
        intro hnil
        simp [hnil] at hf
    refine ⟨by simp [scoreCandidate, hf], ?_, ?_⟩
    · simp only [scoreCandidate, hf, if_true]
      positivity
    · simp only [scoreCandidate, hf, if_true]
      rw [div_le_one (by exact_mod_cast hlen)]
      have hle : metaMatchCount (qd.metadata_filters.getD []) b.metadata ≤
          (qd.metadata_filters.getD []).length :=
        List.length_filter_le _ _
      exact_mod_cast hle

/-- Witness for C4: the surviving hit on `exStore` under the one-filter
query has `meta_score = 1/1` (its domain matches), within `[0, 1]`;
under a filterless query its `meta_score` is `0`. -/
theorem retrieve_meta_score_soft_witness :
    ((scoreCandidate exQd exHit).meta_score =
        (metaMatchCount (exQd.metadata_filters.getD [])
            (scoreCandidate exQd exHit).metadata : ℚ) /
          ((exQd.metadata_filters.getD []).length : ℚ) ∧
      0 ≤ (scoreCandidate exQd exHit).meta_score ∧
      (scoreCandidate exQd exHit).meta_score ≤ 1) ∧
    (scoreCandidate { exQd with metadata_filters := Option.none } exHit).meta_score = 0 := by
  constructor
  · exact (retrieve_meta_score_soft exStore exGs exQd 1 10 (scoreCandidate exQd exHit)
      (by
        rw [show Retriever.survivors exStore exGs exQd 1 10 =
          [scoreCandidate exQd exHit] from rfl]
        exact List.mem_cons_self _ _)).2 (by decide)
  · have h := (retrieve_meta_score_soft exStore exGs
      { exQd with metadata_filters := Option.none } 1 10
      (scoreCandidate { exQd with metadata_filters := Option.none } exHit)
      (by
        rw [show Retriever.survivors exStore exGs
          { exQd with metadata_filters := Option.none } 1 10 =
          [scoreCandidate { exQd with metadata_filters := Option.none } exHit] from rfl]
        exact List.mem_cons_self _ _)).1 (by decide)
    exact h

/-! ### Brute-force ranking helper lemmas -/

theorem pairwise_enum_snd {α : Type} (l : List α) (R : α → α → Prop)
    (h : l.Pairwise R) : l.enum.Pairwise fun p q => R p.2 q.2 := by
  apply List.pairwise_map.mp
  rw [List.enum_map_snd]
  exact h

theorem bruteForceRank_mem (s : Store) (q : List ℚ) (cand : List Nat) (k : Nat)
    (r : Hit) (h : r ∈ bruteForceRank s q cand k) :
    ∃ i ∈ cand, r.distance = sqDist (s.vectors.getD i []) q ∧
      r.metadata = s.metadata.getD i [] := by
  simp only [bruteForceRank, List.mem_map] at h
  obtain ⟨p, hp, rfl⟩ := h
  have hmem : p.2 ∈ ((cand.map fun i => (sqDist (s.vectors.getD i []) q, i)).mergeSort
      fun a b => decide (a.1 ≤ b.1)).take k := by
    rw [← List.enum_map_snd (((cand.map fun i => (sqDist (s.vectors.getD i []) q, i)).mergeSort
      fun a b => decide (a.1 ≤ b.1)).take k)]
    exact List.mem_map_of_mem Prod.snd hp
  have hmem2 := List.mem_mergeSort.mp (List.take_subset _ _ hmem)
  obtain ⟨i, hi, hpi⟩ := List.mem_map.mp hmem2
  exact ⟨i, hi, by rw [← hpi], by rw [← hpi]⟩

theorem bruteForceRank_sorted (s : Store) (q : List ℚ) (cand : List Nat)
    (k : Nat) :
    (bruteForceRank s q cand k).Pairwise fun a b => a.distance ≤ b.distance := by
  have hs : ((cand.map fun i => (sqDist (s.vectors.getD i []) q, i)).mergeSort
      fun a b => decide (a.1 ≤ b.1)).Pairwise
      (fun a b => decide (a.1 ≤ b.1) = true) := by
    apply List.sorted_mergeSort
    · intro a b c hab hbc
      simp only [decide_eq_true_eq] at *
      exact le_trans hab hbc
    · intro a b
      simp only [Bool.or_eq_true, decide_eq_true_eq]
      exact le_total a.1 b.1
  have htk : (((cand.map fun i => (sqDist (s.vectors.getD i []) q, i)).mergeSort
      fun a b => decide (a.1 ≤ b.1)).take k).Pairwise
      (fun a b : ℚ × Nat => a.1 ≤ b.1) :=
    (hs.sublist (List.take_sublist k _)).imp fun h => of_decide_eq_true h
  have he := pairwise_enum_snd _ _ htk
  unfold bruteForceRank
  apply List.pairwise_map.mpr
  exact he.imp fun h => h

theorem bruteForceRank_length (s : Store) (q : List ℚ) (cand : List Nat)
    (k : Nat) : (bruteForceRank s q cand k).length = min k cand.length := by
  simp [bruteForceRank, List.enum_length, List.length_take, List.length_mergeSort]

/-! ### C6 -/

/-- C6: with a non-empty filter dict, `search_with_metadata` returns
only records whose metadata matches every filter pair exactly, ranked
by brute-force distance to the query ascending (the modelled squared
distance orders exactly as the source's `np.linalg.norm`), truncated to
`k`; if no stored record matches, the result is the empty list. -/
theorem search_with_metadata_filters
    (s : Store) (gs : GraphSearch) (q : List ℚ)
    (filters : List (String × PyVal)) (k : Nat) (_hf : filters ≠ []) :
    (∀ r ∈ s.search_with_metadata gs q (some filters) k,
        matchesAll r.metadata filters = true) ∧
    (s.search_with_metadata gs q (some filters) k).Pairwise
      (fun a b => a.distance ≤ b.distance) ∧
    (s.search_with_metadata gs q (some filters) k).length ≤ k ∧
    ((∀ i < s.metadata.length, matchesAll (s.metadata.getD i []) filters = false) →
      s.search_with_metadata gs q (some filters) k = []) := by
  simp only [Store.search_with_metadata]
  by_cases hc : ((List.range s.metadata.length).filter
      fun i => matchesAll (s.metadata.getD i []) filters).isEmpty
  · rw [if_pos hc]
    exact ⟨fun r hr => absurd hr (List.not_mem_nil r),
      List.Pairwise.nil, by simp, fun _ => rfl⟩
  · rw [if_neg hc]
    refine ⟨?_, bruteForceRank_sorted s q _ k, ?_, ?_⟩
    · intro r hr
      obtain ⟨i, hi, -, hmeta⟩ := bruteForceRank_mem s q _ k r hr
      have := (List.mem_filter.mp hi).2
      rw [hmeta]
      exact this
    · rw [bruteForceRank_length]
      exact min_le_left k _
    · intro hnone
      exfalso
      apply hc
      rw [List.isEmpty_iff]
      apply List.filter_eq_nil_iff.mpr
      intro i hi
      rw [hnone i (List.mem_range.mp hi)]
      simp

/-- The hit the metadata-filtered search over `exStore` builds for the
science-tagged record (id 1, vector `[3, 4]`). -/
def swmHitB : Hit :=
  { rank := 1
    distance := sqDist [3, 4] [0, 0]
    score := simScore (sqDist [3, 4] [0, 0])
    text := "beta"
    metadata := [("domain", .str "science"), ("intent", .dict [("is_definition", true)])] }

/-- Witness for C6 on `exStore`: the science filter keeps exactly the
matching record, which satisfies the filter, and asking the filter
`year = 2024` (matched by nothing) returns the empty list. -/
theorem search_with_metadata_filters_witness :
    matchesAll swmHitB.metadata [("domain", PyVal.str "science")] = true ∧
    exStore.search_with_metadata exGs [0, 0]
      (some [("year", PyVal.int 2024)]) 5 = [] := by
  have hres : exStore.search_with_metadata exGs [0, 0]
      (some [("domain", PyVal.str "science")]) 5 = [swmHitB] := by
    rw [show exStore.search_with_metadata exGs [0, 0]
        (some [("domain", PyVal.str "science")]) 5
        = bruteForceRank exStore [0, 0] [1] 5 from rfl]
    unfold bruteForceRank
    rw [show ([1] : List Nat).map
        (fun i => (sqDist (exStore.vectors.getD i []) [0, 0], i))
        = [(sqDist [3, 4] [0, 0], 1)] from rfl]
    simp only [List.mergeSort_singleton]
    rfl
  constructor
  · exact (search_with_metadata_filters exStore exGs [0, 0]
      [("domain", PyVal.str "science")] 5 (by decide)).1 swmHitB
      (by rw [hres]; exact List.mem_cons_self _ _)
  · exact (search_with_metadata_filters exStore exGs [0, 0]
      [("year", PyVal.int 2024)] 5 (by decide)).2.2.2
      (by decide)

/-! ### C10 -/

/-- C10: with an empty-but-present filter dict, every stored record
vacuously matches all zero filter pairs, so `search_with_metadata`
brute-force ranks the entire store: the result is the exact top-`k`
over all ids, independent of the graph-search oracle (the approximate
graph search is not consulted), and non-empty whenever the store is
non-empty and `k ≥ 1`; only `filters = None` falls back to the plain
graph search. -/
theorem search_with_metadata_empty_filter_dict
    (s : Store) (gs gs2 : GraphSearch) (q : List ℚ) (k : Nat) :
    s.search_with_metadata gs q (some []) k =
      bruteForceRank s q (List.range s.metadata.length) k ∧
    s.search_with_metadata gs q (some []) k =
      s.search_with_metadata gs2 q (some []) k ∧
    (s.metadata ≠ [] →
      (s.search_with_metadata gs q (some []) k).length = min k s.metadata.length) ∧
    (s.metadata ≠ [] → 1 ≤ k →
      s.search_with_metadata gs q (some []) k ≠ []) ∧
    s.search_with_metadata gs q Option.none k = (s.search gs q k).1 := by
  have hfilter : ((List.range s.metadata.length).filter
      fun i => matchesAll (s.metadata.getD i []) []) = List.range s.metadata.length :=
    List.filter_eq_self.mpr fun i _ => rfl
  have hmain : s.search_with_metadata gs q (some []) k =
      bruteForceRank s q (List.range s.metadata.length) k := by
    simp only [Store.search_with_metadata, hfilter]
    by_cases hn : s.metadata.length = 0
    · rw [if_pos (by simp [hn])]
      simp [bruteForceRank, hn]
    · rw [if_neg (by simp [List.isEmpty_iff, List.range_eq_nil, hn])]
  refine ⟨hmain, rfl, ?_, ?_, rfl⟩
  · intro hne
    rw [hmain, bruteForceRank_length, List.length_range]
  · intro hne hk
    rw [hmain]
    have hlen : (bruteForceRank s q (List.range s.metadata.length) k).length =
        min k s.metadata.length := by
      rw [bruteForceRank_length, List.length_range]
    intro hnil
    rw [hnil] at hlen
    have h0 : 0 < s.metadata.length := List.length_pos.mpr hne
    simp only [List.length_nil] at hlen
    omega

/-- Witness for C10 on `exStore`: `{}`-filtered search with `k = 1`
returns exactly one hit (the nearer of the two records), and is in
particular non-empty. -/
theorem search_with_metadata_empty_filter_dict_witness :
    (exStore.search_with_metadata exGs [0, 0] (some []) 1).length =
      min 1 exStore.metadata.length ∧
    exStore.search_with_metadata exGs [0, 0] (some []) 1 ≠ [] :=
  ⟨(search_with_metadata_empty_filter_dict exStore exGs exGs [0, 0] 1).2.2.1
      (by decide),
   (search_with_metadata_empty_filter_dict exStore exGs exGs [0, 0] 1).2.2.2.1
      (by decide) (by decide)⟩

/-! ### C9 -/

/-- A page of ordinary prose matching none of the Q&A patterns. -/
def plainPage : Page := { text := "The index stores dense vectors." }

/-- Ten pages in which pages 1, 3 and 5 carry Q&A-style text (a `Q.1`
marker, a line ending in `?`, and an `Answer:` tag). -/
def qnaPagesThree : List Page :=
  [{ text := "Q.1 Define an embedding." }, plainPage,
   { text := "Is recall affected by ef?" }, plainPage,
   { text := "Answer: yes, strongly." }, plainPage,
   plainPage, plainPage, plainPage, plainPage]

/-- Ten pages in which only pages 1 and 3 carry Q&A-style text. -/
def qnaPagesTwo : List Page :=
  [{ text := "Q.1 Define an embedding." }, plainPage,
   { text := "Is recall affected by ef?" }, plainPage,
   plainPage, plainPage, plainPage, plainPage, plainPage, plainPage]

/-- C9: `detect_qna_in_pages` decides exactly the predicate "at least 3
of the first 10 pages (or of all pages when fewer are given) are in
Q&A format" — the explicit under-3-pages guard in the source is
subsumed, since fewer than 3 pages can never contain 3 matches; in
particular it accepts the 10-page list with matches on pages 1, 3, 5
and rejects the one with matches on pages 1, 3 only. -/
theorem detect_qna_threshold :
    (∀ pages_data : List Page,
        detect_qna_in_pages pages_data =
          decide (3 ≤ (pages_data.take 10).countP fun p => is_qna_format p.text)) ∧
    detect_qna_in_pages qnaPagesThree = true ∧
    detect_qna_in_pages qnaPagesTwo = false := by
  refine ⟨?_, by decide, by decide⟩
  intro pages
  by_cases hshort : pages.isEmpty || decide (pages.length < 3)
  · have hlen : pages.length < 3 := by
      rcases Bool.or_eq_true _ _ |>.mp hshort with h | h
      · rw [List.isEmpty_iff] at h
        simp [h]
      · exact of_decide_eq_true h
    have hcount : (pages.take 10).countP (fun p => is_qna_format p.text) < 3 :=
      lt_of_le_of_lt
        (le_trans (List.countP_le_length _)
          (by rw [List.length_take]; omega))
        hlen
    rw [detect_qna_in_pages, if_pos hshort]
    symm
    rw [decide_eq_false_iff_not]
    omega
  · rw [detect_qna_in_pages, if_neg hshort]
